import Mathlib

/-!
Verification development for the Risiko-Manager rating ledger.

The Python sources (`elo.py`, `db.py`, `flask_app.py`) are shallowly embedded
below.  Conventions of the embedding:

* SQLite TEXT values (uuids, names, dates) carry no structure that any claim
  depends on, so they are modelled as abstract identifiers of type `Nat`.
  Freshness of `uuid.uuid4()` is modelled by a `nextId` counter in the state.
* REAL columns and Python floats inside the ledger are modelled as exact
  rationals (`Rat`); the transcendental Elo engine is modelled over the reals.
* The surrogate primary key of `participations` rows is never read by any
  code path, so the column is omitted from the `Participation` record.
* `sqlite3` transactional behaviour: each mutating method either commits its
  whole effect or raises and rolls back, so a method is a function from the
  pre-state to `Except DbError` of the post-state (errors carry no new state:
  the connection keeps the pre-state).
-/

/-- Errors raised by the database layer (`ValueError`s and sqlite
`IntegrityError`s surfaced by `db.py`). -/
inductive DbError where
  | matchNotFound
  | nameExists
  | fkViolation
deriving DecidableEq

/-- One row of the `players` table (`db.py` lines 29-37).  `created_at` is
written but never read by any modelled code path and is omitted. -/
structure Player where
  id : Nat
  name : Nat
  rating : Rat
  games_played : Int
deriving DecidableEq

/-- One row of the `matches` table (`db.py` lines 40-49), minus the unused
`created_at` column. -/
structure Match where
  id : Nat
  date : Nat
  k_factor_used : Rat
  winner_id : Nat
deriving DecidableEq

/-- One row of the `participations` table (`db.py` lines 52-64).  The 0/1
`is_winner` INTEGER column is modelled as `Bool`. -/
structure Participation where
  match_id : Nat
  player_id : Nat
  is_winner : Bool
  rating_before : Rat
  rating_after : Rat
  rating_delta : Rat
deriving DecidableEq

/-- One element of the `losers_data` argument of `Database.record_match`
(`db.py` line 209: dicts with keys id, delta, new_rating, old_rating). -/
structure LoserData where
  id : Nat
  delta : Rat
  new_rating : Rat
  old_rating : Rat
deriving DecidableEq

/-- The whole persistent state: the four tables of `db.py`, with the
`system_settings` table collapsed to its single `k_factor` entry, plus the
uuid-freshness counter. -/
structure State where
  players : List Player
  «matches» : List Match
  participations : List Participation
  k_factor : Rat
  nextId : Nat
deriving DecidableEq

namespace Database

/-- State produced by `Database.init_db` on a fresh file: empty tables and
the default K-factor 32 (`db.py` line 75). -/
def init_db : State :=
  { players := [], «matches» := [], participations := [], k_factor := 32, nextId := 0 }

/-- `Database.get_k_factor` (`db.py` lines 80-84). -/
def get_k_factor (s : State) : Rat := s.k_factor

/-- `Database.set_k_factor` (`db.py` lines 86-89). -/
def set_k_factor (k : Rat) (s : State) : State := { s with k_factor := k }

/-- `Database.get_player` (`db.py` lines 163-167): `SELECT * FROM players
WHERE id = ?`, first row or none. -/
def get_player (player_id : Nat) (s : State) : Option Player :=
  s.players.find? (fun p => p.id == player_id)

/-- `Database.create_player` (`db.py` lines 92-101): insert a fresh row with
the default rating 1200.0 and games_played 0; a duplicate name violates the
UNIQUE constraint and raises `ValueError("Player name already exists")`. -/
def create_player (name : Nat) (s : State) : Except DbError (Nat × State) :=
  if s.players.any (fun p => p.name == name) then
    .error .nameExists
  else
    .ok (s.nextId,
      { s with
        players := s.players ++ [{ id := s.nextId, name := name, rating := 1200.0, games_played := 0 }]
        nextId := s.nextId + 1 })

/-- `UPDATE players SET ... WHERE id = ?`: apply `f` to every player row
whose id matches. -/
def updateWhereId (pid : Nat) (f : Player → Player) (pl : List Player) : List Player :=
  pl.map (fun p => if p.id = pid then f p else p)

/-- Committed effect of `Database.record_match` (`db.py` lines 209-257):
insert the match row (freezing the current K-factor), set the winner's
rating to `winner_new_rating` and bump games_played, insert the winner
participation with `rating_before = winner_new_rating - winner_delta`
(line 228), then per loser set the rating to `new_rating`, bump
games_played and insert the loser participation. -/
def record_match_apply (date : Nat) (winner_id : Nat) (winner_delta winner_new_rating : Rat)
    (losers_data : List LoserData) (s : State) : State :=
  let match_id := s.nextId
  let k_used := get_k_factor s
  let winner_old_rating := winner_new_rating - winner_delta
  let players1 := updateWhereId winner_id
    (fun p => { p with rating := winner_new_rating, games_played := p.games_played + 1 }) s.players
  let players2 := losers_data.foldl
    (fun pl ld => updateWhereId ld.id
      (fun p => { p with rating := ld.new_rating, games_played := p.games_played + 1 }) pl) players1
  let wrow : Participation :=
    { match_id := match_id, player_id := winner_id, is_winner := true,
      rating_before := winner_old_rating, rating_after := winner_new_rating,
      rating_delta := winner_delta }
  let lrows := losers_data.map (fun ld =>
    ({ match_id := match_id, player_id := ld.id, is_winner := false,
       rating_before := ld.old_rating, rating_after := ld.new_rating,
       rating_delta := ld.delta } : Participation))
  { s with
    players := players2
    «matches» := s.«matches» ++ [{ id := match_id, date := date, k_factor_used := k_used, winner_id := winner_id }]
    participations := s.participations ++ wrow :: lrows
    nextId := s.nextId + 1 }

/-- `Database.record_match` (`db.py` lines 209-257).  The `loser_ids`
parameter is accepted and ignored exactly as in the source.  The enabled
foreign keys make the transaction fail (and roll back wholesale) iff the
winner id or some loser id references no player row; that all-or-nothing
outcome is modelled by the guard. -/
def record_match (date : Nat) (winner_id : Nat) (loser_ids : List Nat)
    (winner_delta winner_new_rating : Rat) (losers_data : List LoserData)
    (s : State) : Except DbError (Nat × State) :=
  if s.players.any (fun p => p.id == winner_id)
      && losers_data.all (fun ld => s.players.any (fun p => p.id == ld.id)) then
    .ok (s.nextId, record_match_apply date winner_id winner_delta winner_new_rating losers_data s)
  else
    .error .fkViolation

/-- Committed effect of `Database.delete_match` (`db.py` lines 132-161):
for every participation of the match subtract its stored `rating_delta`
from the player's rating and decrement games_played, then delete those
participations and the match row. -/
def delete_match_apply (match_id : Nat) (s : State) : State :=
  let parts := s.participations.filter (fun r => r.match_id == match_id)
  { s with
    players := parts.foldl
      (fun pl r => updateWhereId r.player_id
        (fun p => { p with rating := p.rating - r.rating_delta, games_played := p.games_played - 1 }) pl)
      s.players
    participations := s.participations.filter (fun r => !(r.match_id == match_id))
    «matches» := s.«matches».filter (fun m => !(m.id == match_id)) }

/-- `Database.delete_match` (`db.py` lines 132-161).  If the match has no
participation rows it raises `ValueError("Match not found")` before any
write; otherwise the whole reversal commits. -/
def delete_match (match_id : Nat) (s : State) : Except DbError State :=
  if s.participations.filter (fun r => r.match_id == match_id) = [] then
    .error .matchNotFound
  else .ok (delete_match_apply match_id s)

/-- The try/except wrapper around `Database.delete_match`: on any raised
error the transaction is rolled back, so the connection is left in the
pre-call state (`db.py` lines 159-161). -/
def delete_match_api (match_id : Nat) (s : State) : Except DbError Unit × State :=
  match delete_match match_id s with
  | .ok s' => (.ok (), s')
  | .error e => (.error e, s)

/-- `Database.delete_player` (`db.py` lines 103-130): collect the matches
won by the player, delete the participations of each such match (the loop
of line 115-116), delete those matches, delete the player's own remaining
participations, and finally the player row.  No rating is adjusted. -/
def delete_player (player_id : Nat) (s : State) : State :=
  let matches_won := (s.«matches».filter (fun m => m.winner_id == player_id)).map (fun m => m.id)
  let parts1 := matches_won.foldl
    (fun rows mid => rows.filter (fun r => !(r.match_id == mid))) s.participations
  let matches1 := s.«matches».filter (fun m => !(m.winner_id == player_id))
  let parts2 := parts1.filter (fun r => !(r.player_id == player_id))
  { s with
    players := s.players.filter (fun p => !(p.id == player_id))
    «matches» := matches1
    participations := parts2 }

/-- Python `int()` applied to a nonintegral value: truncation toward zero
(`db.py` line 182). -/
def int_trunc (q : Rat) : Int := if q < 0 then Int.ceil q else Int.floor q

/-- The `max_games` computation of `Database.get_all_players` (`db.py` line
178): maximum of `games_played` over a nonempty player list (0 on the
unreachable empty list). -/
def max_games (players : List Player) : Int :=
  match players with
  | [] => 0
  | p :: rest => rest.foldl (fun m q => max m q.games_played) p.games_played

/-- The dynamic leaderboard threshold of `Database.get_all_players`
(`db.py` lines 182-183): `min(15, max(5, int(max_games * 0.20)))`. -/
def leaderboard_threshold (players : List Player) : Int :=
  min 15 (max 5 (int_trunc ((max_games players : Rat) * 0.20)))

/-- One element of the list returned by `Database.get_all_players`: the
player row extended with the computed `is_ranked` flag and the threshold
(`db.py` lines 190-191). -/
structure RankedPlayer where
  player : Player
  is_ranked : Bool
  threshold : Int
deriving DecidableEq

/-- Stable insertion into a list sorted by descending rating; models one
step of Python's stable `list.sort(key=rating, reverse=True)`. -/
def insertDesc (rp : RankedPlayer) : List RankedPlayer → List RankedPlayer
  | [] => [rp]
  | q :: rest =>
    if q.player.rating < rp.player.rating then rp :: q :: rest
    else q :: insertDesc rp rest

/-- Stable sort by descending rating (`db.py` lines 200, 204). -/
def sortByRatingDesc (l : List RankedPlayer) : List RankedPlayer :=
  l.foldr insertDesc []

/-- `Database.get_all_players` (`db.py` lines 169-206): empty population
yields the empty list; otherwise flag every player against the dynamic
threshold, partition into ranked and provisional, sort each partition by
descending rating and concatenate. -/
def get_all_players (s : State) : List RankedPlayer :=
  if s.players = [] then []
  else
    let threshold := leaderboard_threshold s.players
    let flagged := s.players.map (fun p =>
      ({ player := p, is_ranked := decide (p.games_played ≥ threshold), threshold := threshold } : RankedPlayer))
    let ranked := flagged.filter (fun rp => rp.is_ranked)
    let provisional := flagged.filter (fun rp => !rp.is_ranked)
    sortByRatingDesc ranked ++ sortByRatingDesc provisional

/-- One row of the result of `Database.get_matches_history`; the
`GROUP_CONCAT` of loser names is modelled as the list of those names. -/
structure MatchHistoryRow where
  id : Nat
  date : Nat
  winner_name : Nat
  losers_names : List Nat
deriving DecidableEq

/-- `Database.get_matches_history` (`db.py` lines 275-291): inner joins of
each match with its winner row and with its loser participations joined to
existing players, grouped per match.  A match whose winner join or loser
join produces no row yields no group and is omitted.  The `ORDER BY date`
clause only permutes the result and is not modelled. -/
def get_matches_history (s : State) : List MatchHistoryRow :=
  s.«matches».filterMap (fun m =>
    match s.players.find? (fun w => w.id == m.winner_id) with
    | none => none
    | some w =>
      let losers := (s.participations.filter
          (fun p => p.match_id == m.id && p.is_winner == false)).filterMap
        (fun p => s.players.find? (fun l => l.id == p.player_id))
      if losers = [] then none
      else some { id := m.id, date := m.date, winner_name := w.name,
                  losers_names := losers.map (fun l => l.name) })

end Database

namespace Elo

/-- `Elo.expected_score` (`elo.py` lines 12-18):
`1 / (1 + 10 ^ ((rating_b - rating_a) / 400))`. -/
noncomputable def expected_score (rating_a rating_b : ℝ) : ℝ :=
  1 / (1 + (10 : ℝ) ^ ((rating_b - rating_a) / 400))

/-- `Elo.calculate_deltas` (`elo.py` lines 20-57): one pass over the loser
ratings accumulating the winner delta (`exp_win` term) and appending each
loser delta (`exp_loss` term); the source's local names are inlined. -/
noncomputable def calculate_deltas (winner_rating : ℝ) (loser_ratings : List ℝ)
    (k_factor : ℝ) : ℝ × List ℝ :=
  loser_ratings.foldl
    (fun acc l_rating =>
      (acc.1 + k_factor * (1 - expected_score winner_rating l_rating),
       acc.2 ++ [k_factor * (0 - expected_score l_rating winner_rating)]))
    (0, [])

end Elo

namespace FlaskApp

/-- One row of `Database.get_player_history` output as consumed by the
`get_player` route (`db.py` lines 259-273). -/
structure HistRow where
  match_id : Nat
  date : Nat
  is_winner : Bool
  rating_delta : Rat
  rating_after : Rat
deriving DecidableEq

/-- `total_games` of the `get_player` route (`flask_app.py` line 38). -/
def total_games (history : List HistRow) : Nat := history.length

/-- `wins` of the `get_player` route (`flask_app.py` line 39). -/
def wins (history : List HistRow) : Nat :=
  (history.filter (fun m => m.is_winner)).length

/-- `win_rate` of the `get_player` route (`flask_app.py` line 40):
`wins / total_games * 100` guarded against an empty history. -/
def win_rate (history : List HistRow) : Rat :=
  if 0 < total_games history then
    ((wins history : Rat) / (total_games history : Rat)) * 100
  else 0

/-- The `losers_update_data` construction of the `create_match` route
(`flask_app.py` lines 140-148): pair each loser row with its delta and
record `new_rating = rating + delta`, `old_rating = rating`. -/
def losers_update_data (losers : List Player) (deltas_l : List Rat) : List LoserData :=
  List.zipWith (fun (l : Player) (d : Rat) =>
    ({ id := l.id, delta := d, new_rating := l.rating + d, old_rating := l.rating } : LoserData))
    losers deltas_l

end FlaskApp

/-- One public ledger operation, as invoked through the admin routes of
`flask_app.py`.  The `record` constructor carries the caller contract of
the match-recording operation: the per-participant (delta, new_rating,
old_rating) tuples are computed from the current stored ratings exactly as
`create_match` does (`flask_app.py` lines 124-150), the participant ids
are pairwise distinct and the winner is not among the losers, and the
loser set is nonempty. -/
inductive Step : State → State → Prop where
  | create (name pid : Nat) (s s' : State)
      (h : Database.create_player name s = .ok (pid, s')) : Step s s'
  | record (date winner_id : Nat) (loser_ids : List Nat) (dw new_w : Rat)
      (ldata : List LoserData) (w : Player) (mid : Nat) (s s' : State)
      (hw : Database.get_player winner_id s = some w)
      (hnew : new_w = w.rating + dw)
      (hld : ∀ ld ∈ ldata, ∃ q ∈ s.players, q.id = ld.id ∧
          ld.old_rating = q.rating ∧ ld.new_rating = q.rating + ld.delta)
      (hnodup : (winner_id :: ldata.map (fun ld => ld.id)).Nodup)
      (hne : ldata ≠ [])
      (h : Database.record_match date winner_id loser_ids dw new_w ldata s = .ok (mid, s')) :
      Step s s'
  | deleteM (mid : Nat) (s s' : State)
      (h : Database.delete_match mid s = .ok s') : Step s s'
  | setK (k : Rat) (s : State) : Step s (Database.set_k_factor k s)

/-- A public operation including player deletion (which always commits). -/
def StepFull (s s' : State) : Prop :=
  Step s s' ∨ ∃ pid, s' = Database.delete_player pid s

/-- States reachable from the freshly initialised database without player
deletion. -/
def Reachable (s : State) : Prop :=
  Relation.ReflTransGen Step Database.init_db s

/-- States reachable from the freshly initialised database by arbitrary
public operations, player deletion included. -/
def ReachableFull (s : State) : Prop :=
  Relation.ReflTransGen StepFull Database.init_db s

/-- The ledger-wide bookkeeping invariant of spec §3: every player's stored
rating is the 1200.0 starting rating plus the sum of the rating deltas of
their stored participations, and games_played counts those rows. -/
def RatingInv (s : State) : Prop :=
  ∀ p ∈ s.players,
    p.rating = 1200
        + ((s.participations.filter (fun r => r.player_id == p.id)).map
            (fun r => r.rating_delta)).sum
    ∧ p.games_played
        = ((s.participations.filter (fun r => r.player_id == p.id)).length : Int)

instance (s : State) : Decidable (RatingInv s) := by
  unfold RatingInv
  infer_instance

/-- Auxiliary inductive invariant: the bookkeeping invariant together with
primary-key uniqueness of player rows and freshness of the uuid counter. -/
def InvAux (s : State) : Prop :=
  RatingInv s
  ∧ (s.players.map (fun p => p.id)).Nodup
  ∧ (∀ p ∈ s.players, p.id < s.nextId)
  ∧ (∀ r ∈ s.participations, r.player_id < s.nextId)

/-- Concrete player rows and states used by witnesses and counterexamples:
two players are created, player 0 beats player 1 with K = 32, and then
player 0 is deleted. -/
def exA : Player := { id := 0, name := 0, rating := 1200, games_played := 0 }

/-- Second concrete player. -/
def exB : Player := { id := 1, name := 1, rating := 1200, games_played := 0 }

/-- Loser tuple for the concrete match, as `create_match` would build it. -/
def exLd : LoserData := { id := 1, delta := -16, new_rating := 1184, old_rating := 1200 }

/-- State after creating the two players. -/
def exS1 : State := { players := [exA], «matches» := [], participations := [], k_factor := 32, nextId := 1 }

/-- State after creating both players. -/
def exS2 : State := { players := [exA, exB], «matches» := [], participations := [], k_factor := 32, nextId := 2 }

/-- State after player 0 beats player 1 (match id 2, date 7, K = 32). -/
def exS3 : State :=
  { players := [{ id := 0, name := 0, rating := 1216, games_played := 1 },
                { id := 1, name := 1, rating := 1184, games_played := 1 }]
    «matches» := [{ id := 2, date := 7, k_factor_used := 32, winner_id := 0 }]
    participations :=
      [{ match_id := 2, player_id := 0, is_winner := true,
         rating_before := 1200, rating_after := 1216, rating_delta := 16 },
       { match_id := 2, player_id := 1, is_winner := false,
         rating_before := 1200, rating_after := 1184, rating_delta := -16 }]
    k_factor := 32, nextId := 3 }

/-- State after deleting player 0 from `exS3`: the match and both
participations are gone but player 1 keeps rating 1184 and games_played 1. -/
def exS4 : State :=
  { players := [{ id := 1, name := 1, rating := 1184, games_played := 1 }]
    «matches» := [], participations := [], k_factor := 32, nextId := 3 }

section ListLemmas

/-- Mapping a function that fixes every member is the identity. -/
theorem list_map_id_of {α : Type} (l : List α) (f : α → α) (h : ∀ a ∈ l, f a = a) :
    l.map f = l := by
  induction l with
  | nil => rfl
  | cons x xs ih =>
    simp only [List.map_cons]
    rw [h x (by simp), ih (fun a ha => h a (by simp [ha]))]

/-- Congruence for `List.map` on members. -/
theorem list_map_congr {α β : Type} (l : List α) (f g : α → β) (h : ∀ a ∈ l, f a = g a) :
    l.map f = l.map g := by
  induction l with
  | nil => rfl
  | cons x xs ih =>
    simp only [List.map_cons]
    rw [h x (by simp), ih (fun a ha => h a (by simp [ha]))]

/-- A fold of row-keyed `UPDATE ... WHERE id = ?` statements over the
player table acts pointwise on every row. -/
theorem foldl_updateWhereId {β : Type} (key : β → Nat) (f : β → Player → Player) :
    ∀ (bs : List β) (pl : List Player),
      bs.foldl (fun acc b => Database.updateWhereId (key b) (f b) acc) pl
        = pl.map (fun p => bs.foldl (fun q b => if q.id = key b then f b q else q) p) := by
  intro bs
  induction bs with
  | nil => intro pl; simp
  | cons x xs ih =>
    intro pl
    simp only [List.foldl_cons]
    rw [ih]
    unfold Database.updateWhereId
    rw [List.map_map]
    rfl

/-- Pointwise update chain: a row matched by no update is unchanged. -/
theorem foldl_point_skip {β : Type} (key : β → Nat) (f : β → Player → Player) :
    ∀ (bs : List β) (p : Player), (∀ b ∈ bs, p.id ≠ key b) →
      bs.foldl (fun q b => if q.id = key b then f b q else q) p = p := by
  intro bs
  induction bs with
  | nil => intro p _; rfl
  | cons x xs ih =>
    intro p hp
    simp only [List.foldl_cons]
    rw [if_neg (hp x (by simp))]
    exact ih p (fun b hb => hp b (by simp [hb]))

/-- Pointwise update chain with id-preserving updates and pairwise
distinct keys: a row matched by exactly one update receives it. -/
theorem foldl_point_single {β : Type} (key : β → Nat) (f : β → Player → Player)
    (hid : ∀ b q, (f b q).id = q.id) :
    ∀ (bs : List β) (b : β) (p : Player), (bs.map key).Nodup → b ∈ bs → p.id = key b →
      bs.foldl (fun q b' => if q.id = key b' then f b' q else q) p = f b p := by
  intro bs
  induction bs with
  | nil => intro b p _ hb; exact absurd hb (List.not_mem_nil b)
  | cons x xs ih =>
    intro b p hnd hb hpb
    simp only [List.map_cons, List.nodup_cons] at hnd
    obtain ⟨hnotin, hnd'⟩ := hnd
    rcases List.mem_cons.mp hb with rfl | hbxs
    · simp only [List.foldl_cons]
      rw [if_pos hpb]
      apply foldl_point_skip
      intro b' hb'
      rw [hid, hpb]
      exact fun hEq => hnotin (hEq ▸ List.mem_map_of_mem key hb')
    · have hne : p.id ≠ key x := by
        rw [hpb]
        intro hEq
        exact hnotin (hEq ▸ List.mem_map_of_mem key hbxs)
      simp only [List.foldl_cons]
      rw [if_neg hne]
      exact ih b p hnd' hbxs hpb

/-- Pointwise update chains built from id-preserving updates preserve the
row id. -/
theorem foldl_point_id {β : Type} (key : β → Nat) (f : β → Player → Player)
    (hid : ∀ b q, (f b q).id = q.id) :
    ∀ (bs : List β) (p : Player),
      (bs.foldl (fun q b => if q.id = key b then f b q else q) p).id = p.id := by
  intro bs
  induction bs with
  | nil => intro p; rfl
  | cons x xs ih =>
    intro p
    simp only [List.foldl_cons]
    rw [ih]
    by_cases h : p.id = key x
    · rw [if_pos h, hid]
    · rw [if_neg h]

/-- Two members of a list with nodup keys and equal keys coincide. -/
theorem nodup_key_inj {α : Type} (key : α → Nat) :
    ∀ (l : List α), (l.map key).Nodup → ∀ a ∈ l, ∀ b ∈ l, key a = key b → a = b := by
  intro l
  induction l with
  | nil => intro _ a ha; exact absurd ha (List.not_mem_nil a)
  | cons x xs ih =>
    intro h a ha b hb hab
    simp only [List.map_cons, List.nodup_cons] at h
    obtain ⟨hnotin, hnd⟩ := h
    rcases List.mem_cons.mp ha with rfl | hax
    · rcases List.mem_cons.mp hb with rfl | hbx
      · rfl
      · exact absurd (by rw [hab]; exact List.mem_map_of_mem key hbx) hnotin
    · rcases List.mem_cons.mp hb with rfl | hbx
      · exact absurd (by rw [← hab]; exact List.mem_map_of_mem key hax) hnotin
      · exact ih hnd a hax b hbx hab

/-- The rating-reversal loop of `delete_match` acts on one row by
subtracting the summed deltas of the matching participations and
decrementing games_played once per matching row. -/
theorem foldl_rev_point :
    ∀ (rows : List Participation) (p : Player),
      rows.foldl
        (fun q r => if q.id = r.player_id then
            { q with rating := q.rating - r.rating_delta, games_played := q.games_played - 1 }
          else q) p
      = { p with
          rating := p.rating
            - ((rows.filter (fun r => r.player_id == p.id)).map (fun r => r.rating_delta)).sum,
          games_played := p.games_played
            - ((rows.filter (fun r => r.player_id == p.id)).length : Int) } := by
  intro rows
  induction rows with
  | nil => intro p; simp
  | cons r rows ih =>
    intro p
    by_cases h : r.player_id = p.id
    · simp only [List.foldl_cons, List.filter_cons, h, beq_self_eq_true, if_true]
      rw [ih]
      simp only [List.map_cons, List.sum_cons, List.length_cons]
      congr 1
      · ring
      · push_cast
        ring
    · simp only [List.foldl_cons, List.filter_cons]
      rw [if_neg (fun hEq => h hEq.symm), if_neg (by simp [h])]
      exact ih p

/-- Filtering a mapped list filters the source through the composite
predicate. -/
theorem filter_map_comm {α β : Type} (f : α → β) (p : β → Bool) :
    ∀ l : List α, (l.map f).filter p = (l.filter (fun a => p (f a))).map f := by
  intro l
  induction l with
  | nil => rfl
  | cons x xs ih =>
    by_cases h : p (f x) <;> simp [List.filter_cons, h, ih]

/-- With nodup keys, filtering for the key of a member returns exactly
that member. -/
theorem filter_key_single {α : Type} [DecidableEq α] (key : α → Nat) :
    ∀ (l : List α), (l.map key).Nodup → ∀ b ∈ l, l.filter (fun x => key x == key b) = [b] := by
  intro l
  induction l with
  | nil => intro _ b hb; exact absurd hb (List.not_mem_nil b)
  | cons x xs ih =>
    intro h b hb
    simp only [List.map_cons, List.nodup_cons] at h
    obtain ⟨hnotin, hnd⟩ := h
    rcases List.mem_cons.mp hb with rfl | hbx
    · simp only [List.filter_cons]
      rw [if_pos (by simp)]
      have hrest : xs.filter (fun y => key y == key b) = [] := by
        rw [List.filter_eq_nil_iff]
        intro y hy
        simp only [beq_iff_eq]
        exact fun hEq => hnotin (hEq ▸ List.mem_map_of_mem key hy)
      rw [hrest]
    · have hxb : ¬ ((key x == key b) = true) := by
        simp only [beq_iff_eq]
        intro hEq
        exact hnotin (by rw [hEq]; exact List.mem_map_of_mem key hbx)
      simp only [List.filter_cons]
      rw [if_neg hxb]
      exact ih hnd b hbx

/-- Splitting a mapped sum along a Boolean predicate. -/
theorem sum_filter_bool_split {α : Type} (q : α → Bool) (f : α → Rat) :
    ∀ l : List α,
      ((l.map f).sum) = (((l.filter q).map f).sum) + (((l.filter (fun a => !q a)).map f).sum) := by
  intro l
  induction l with
  | nil => simp
  | cons x xs ih =>
    by_cases h : q x <;> simp [List.filter_cons, h, ih] <;> ring

/-- Splitting a length along a Boolean predicate. -/
theorem length_filter_bool_split {α : Type} (q : α → Bool) :
    ∀ l : List α, l.length = (l.filter q).length + (l.filter (fun a => !q a)).length := by
  intro l
  induction l with
  | nil => simp
  | cons x xs ih =>
    by_cases h : q x <;> simp [List.filter_cons, h, ih] <;> omega

/-- Two filters commute. -/
theorem filter_comm {α : Type} (p q : α → Bool) (l : List α) :
    (l.filter p).filter q = (l.filter q).filter p := by
  induction l with
  | nil => rfl
  | cons x xs ih =>
    by_cases hp : p x <;> by_cases hq : q x <;> simp [List.filter_cons, hp, hq, ih]

/-- Members of a `zipWith` come from members of the zipped lists. -/
theorem mem_zipWith {α β γ : Type} (f : α → β → γ) :
    ∀ (as : List α) (bs : List β) (c : γ),
      c ∈ List.zipWith f as bs → ∃ a ∈ as, ∃ b ∈ bs, c = f a b := by
  intro as
  induction as with
  | nil => intro bs c hc; simp [List.zipWith] at hc
  | cons a as ih =>
    intro bs c hc
    cases bs with
    | nil => simp [List.zipWith] at hc
    | cons b bs =>
      simp only [List.zipWith_cons_cons, List.mem_cons] at hc
      rcases hc with rfl | hc
      · exact ⟨a, by simp, b, by simp, rfl⟩
      · obtain ⟨a', ha', b', hb', rfl⟩ := ih bs c hc
        exact ⟨a', by simp [ha'], b', by simp [hb'], rfl⟩

end ListLemmas

section LedgerLemmas

/-- A successful `get_player` lookup returns a stored row with the looked
up id. -/
theorem get_player_some {pid : Nat} {s : State} {w : Player}
    (h : Database.get_player pid s = some w) : w ∈ s.players ∧ w.id = pid := by
  unfold Database.get_player at h
  have hmem := List.mem_of_find?_eq_some h
  have hpred := List.find?_some h
  simp only [beq_iff_eq] at hpred
  exact ⟨hmem, hpred⟩

/-- The winner update followed by the per-loser update loop of
`record_match` acts pointwise on the player table. -/
theorem record_apply_players (date wid : Nat) (dw new_w : Rat) (ldata : List LoserData)
    (s : State) :
    (Database.record_match_apply date wid dw new_w ldata s).players
      = s.players.map (fun p =>
          ldata.foldl
            (fun q ld => if q.id = ld.id then
                { q with rating := ld.new_rating, games_played := q.games_played + 1 }
              else q)
            (if p.id = wid then
                { p with rating := new_w, games_played := p.games_played + 1 }
              else p)) := by
  unfold Database.record_match_apply
  dsimp only
  rw [foldl_updateWhereId (fun ld : LoserData => ld.id)
      (fun ld p => { p with rating := ld.new_rating, games_played := p.games_played + 1 })]
  unfold Database.updateWhereId
  rw [List.map_map]
  rfl

/-- The participation rows written by `record_match`: the winner row then
one row per loser tuple, appended to the table. -/
theorem record_apply_parts (date wid : Nat) (dw new_w : Rat) (ldata : List LoserData)
    (s : State) :
    (Database.record_match_apply date wid dw new_w ldata s).participations
      = s.participations
        ++ ({ match_id := s.nextId, player_id := wid, is_winner := true,
              rating_before := new_w - dw, rating_after := new_w,
              rating_delta := dw } : Participation)
        :: ldata.map (fun ld =>
             ({ match_id := s.nextId, player_id := ld.id, is_winner := false,
                rating_before := ld.old_rating, rating_after := ld.new_rating,
                rating_delta := ld.delta } : Participation)) := rfl

/-- The rating-reversal pass of `delete_match` acts pointwise on the
player table: every row loses the summed deltas of its rows in the match
and one games_played per such row. -/
theorem delete_apply_players (mid : Nat) (s : State) :
    (Database.delete_match_apply mid s).players
      = s.players.map (fun p =>
          { p with
            rating := p.rating
              - (((s.participations.filter (fun r => r.match_id == mid)).filter
                    (fun r => r.player_id == p.id)).map (fun r => r.rating_delta)).sum,
            games_played := p.games_played
              - (((s.participations.filter (fun r => r.match_id == mid)).filter
                    (fun r => r.player_id == p.id)).length : Int) }) := by
  unfold Database.delete_match_apply
  dsimp only
  rw [foldl_updateWhereId (fun r : Participation => r.player_id)
      (fun r p => { p with rating := p.rating - r.rating_delta, games_played := p.games_played - 1 })]
  exact list_map_congr _ _ _ (fun p _ => foldl_rev_point _ p)

/-- Sequentially deleting the rows of each listed match equals one filter
against membership in the list. -/
theorem foldl_filter_not_mem {α : Type} (key : α → Nat) :
    ∀ (mids : List Nat) (rows : List α),
      mids.foldl (fun acc mid => acc.filter (fun r => !(key r == mid))) rows
        = rows.filter (fun r => !(decide (key r ∈ mids))) := by
  intro mids
  induction mids with
  | nil => intro rows; simp
  | cons m ms ih =>
    intro rows
    simp only [List.foldl_cons]
    rw [ih, List.filter_filter]
    apply List.filter_congr
    intro a _
    by_cases h1 : key a = m <;> by_cases h2 : key a ∈ ms <;> simp [h1, h2]

end LedgerLemmas

section InvariantLemmas

/-- `create_player` preserves the auxiliary invariant: the fresh row
starts at 1200 with no participations. -/
theorem invAux_create {name pid : Nat} {s s' : State}
    (h : Database.create_player name s = .ok (pid, s')) (ha : InvAux s) : InvAux s' := by
  obtain ⟨hinv, hpn, hpb, hrb⟩ := ha
  unfold Database.create_player at h
  split at h
  · simp at h
  · simp only [Except.ok.injEq, Prod.mk.injEq] at h
    obtain ⟨-, hs'⟩ := h
    subst hs'
    refine ⟨?_, ?_, ?_, ?_⟩
    · intro p hp
      simp only [List.mem_append, List.mem_singleton] at hp
      rcases hp with hp | rfl
      · exact hinv p hp
      · have hf : s.participations.filter (fun r => r.player_id == s.nextId) = [] := by
          rw [List.filter_eq_nil_iff]
          intro r hr
          simp only [beq_iff_eq]
          exact Nat.ne_of_lt (hrb r hr)
        constructor
        · simp [hf]
          norm_num
        · simp [hf]
    · simp only [List.map_append, List.map_cons, List.map_nil]
      rw [List.nodup_append]
      refine ⟨hpn, List.nodup_singleton _, ?_⟩
      intro a ha hb
      simp only [List.mem_singleton] at hb
      subst hb
      obtain ⟨p, hp, hpa⟩ := List.mem_map.mp ha
      exact absurd hpa (Nat.ne_of_lt (hpb p hp))
    · intro p hp
      simp only [List.mem_append, List.mem_singleton] at hp
      rcases hp with hp | rfl
      · exact Nat.lt_trans (hpb p hp) (Nat.lt_succ_self _)
      · exact Nat.lt_succ_self _
    · intro r hr
      exact Nat.lt_trans (hrb r hr) (Nat.lt_succ_self _)

/-- Pointwise effect of the `record_match` update pass on the winner row:
the new rating is written and games_played bumped once. -/
theorem record_point_winner (winner_id : Nat) (new_w : Rat) (ldata : List LoserData)
    (hwnotin : winner_id ∉ ldata.map (fun ld => ld.id)) (p : Player) (hcw : p.id = winner_id) :
    ldata.foldl
      (fun q ld => if q.id = ld.id then
          { q with rating := ld.new_rating, games_played := q.games_played + 1 } else q)
      (if p.id = winner_id then
          { p with rating := new_w, games_played := p.games_played + 1 } else p)
    = { p with rating := new_w, games_played := p.games_played + 1 } := by
  rw [if_pos hcw]
  apply foldl_point_skip (fun ld : LoserData => ld.id)
  intro ld hldm
  show p.id ≠ ld.id
  rw [hcw]
  intro hEq
  exact hwnotin (by rw [hEq]; exact List.mem_map_of_mem _ hldm)

/-- Pointwise effect of the `record_match` update pass on one loser row:
with pairwise distinct loser ids only that loser's tuple is applied. -/
theorem record_point_loser (winner_id : Nat) (new_w : Rat) (ldata : List LoserData)
    (hidnd : (ldata.map (fun ld => ld.id)).Nodup)
    (ld : LoserData) (hldm : ld ∈ ldata) (p : Player) (hcl : p.id = ld.id)
    (hcw : p.id ≠ winner_id) :
    ldata.foldl
      (fun q ld => if q.id = ld.id then
          { q with rating := ld.new_rating, games_played := q.games_played + 1 } else q)
      (if p.id = winner_id then
          { p with rating := new_w, games_played := p.games_played + 1 } else p)
    = { p with rating := ld.new_rating, games_played := p.games_played + 1 } := by
  rw [if_neg hcw]
  exact foldl_point_single (fun ld : LoserData => ld.id)
    (fun ld q => { q with rating := ld.new_rating, games_played := q.games_played + 1 })
    (fun _ _ => rfl) ldata ld p hidnd hldm hcl

/-- Pointwise effect of the `record_match` update pass on a row that is
neither the winner nor a loser: unchanged. -/
theorem record_point_other (winner_id : Nat) (new_w : Rat) (ldata : List LoserData)
    (p : Player) (hcw : p.id ≠ winner_id) (hcl : p.id ∉ ldata.map (fun ld => ld.id)) :
    ldata.foldl
      (fun q ld => if q.id = ld.id then
          { q with rating := ld.new_rating, games_played := q.games_played + 1 } else q)
      (if p.id = winner_id then
          { p with rating := new_w, games_played := p.games_played + 1 } else p)
    = p := by
  rw [if_neg hcw]
  apply foldl_point_skip (fun ld : LoserData => ld.id)
  intro ld hldm
  exact fun hEq => hcl (by rw [hEq]; exact List.mem_map_of_mem _ hldm)

/-- The loser participation rows written by `record_match` contain no row
for an id that is not a loser id. -/
theorem filter_lrows_not_mem (ldata : List LoserData) (mid i : Nat)
    (hne : i ∉ ldata.map (fun ld => ld.id)) :
    (ldata.map (fun ld =>
        ({ match_id := mid, player_id := ld.id, is_winner := false,
           rating_before := ld.old_rating, rating_after := ld.new_rating,
           rating_delta := ld.delta } : Participation))).filter
      (fun r => r.player_id == i) = [] := by
  rw [List.filter_eq_nil_iff]
  intro r hr
  obtain ⟨ld, hldm, rfl⟩ := List.mem_map.mp hr
  simp only [beq_iff_eq]
  intro hEq
  exact hne (by rw [← hEq]; exact List.mem_map_of_mem _ hldm)

/-- With pairwise distinct loser ids, the loser participation rows written
by `record_match` contain exactly one row for each loser id. -/
theorem filter_lrows_single (ldata : List LoserData) (mid : Nat)
    (ld : LoserData) (i : Nat)
    (hidnd : (ldata.map (fun ld => ld.id)).Nodup)
    (hldm : ld ∈ ldata) (hi : ld.id = i) :
    (ldata.map (fun ld =>
        ({ match_id := mid, player_id := ld.id, is_winner := false,
           rating_before := ld.old_rating, rating_after := ld.new_rating,
           rating_delta := ld.delta } : Participation))).filter
      (fun r => r.player_id == i)
    = [({ match_id := mid, player_id := ld.id, is_winner := false,
          rating_before := ld.old_rating, rating_after := ld.new_rating,
          rating_delta := ld.delta } : Participation)] := by
  subst hi
  rw [filter_map_comm]
  rw [show (fun a : LoserData =>
      (({ match_id := mid, player_id := a.id, is_winner := false,
          rating_before := a.old_rating, rating_after := a.new_rating,
          rating_delta := a.delta } : Participation).player_id == ld.id))
    = (fun a : LoserData => a.id == ld.id) from rfl]
  rw [filter_key_single (fun x : LoserData => x.id) ldata hidnd ld hldm]
  rfl

/-- `record_match`, invoked under the caller contract of `create_match`,
preserves the auxiliary invariant: each participant's rating moves by
exactly the delta stored in their new participation row and games_played
counts the new row. -/
theorem invAux_record
    {date winner_id : Nat} {loser_ids : List Nat} {dw new_w : Rat}
    {ldata : List LoserData} {w : Player} {mid : Nat} {s s' : State}
    (hw : Database.get_player winner_id s = some w)
    (hnew : new_w = w.rating + dw)
    (hld : ∀ ld ∈ ldata, ∃ q ∈ s.players, q.id = ld.id ∧
        ld.old_rating = q.rating ∧ ld.new_rating = q.rating + ld.delta)
    (hnodup : (winner_id :: ldata.map (fun ld => ld.id)).Nodup)
    (h : Database.record_match date winner_id loser_ids dw new_w ldata s = .ok (mid, s'))
    (ha : InvAux s) : InvAux s' := by
  obtain ⟨hinv, hpn, hpb, hrb⟩ := ha
  unfold Database.record_match at h
  split at h
  case isFalse => simp at h
  case isTrue hguard =>
  simp only [Except.ok.injEq, Prod.mk.injEq] at h
  obtain ⟨hmid, hs'⟩ := h
  subst hs'
  obtain ⟨hwmem, hwid⟩ := get_player_some hw
  have hidnd : (ldata.map (fun ld => ld.id)).Nodup := (List.nodup_cons.mp hnodup).2
  have hwnotin : winner_id ∉ ldata.map (fun ld => ld.id) := (List.nodup_cons.mp hnodup).1
  have hpl := record_apply_players date winner_id dw new_w ldata s
  have hparts := record_apply_parts date winner_id dw new_w ldata s
  have hFid : ∀ p : Player,
      (ldata.foldl
        (fun q ld => if q.id = ld.id then
            { q with rating := ld.new_rating, games_played := q.games_played + 1 } else q)
        (if p.id = winner_id then
            { p with rating := new_w, games_played := p.games_played + 1 } else p)).id
      = p.id := by
    intro p
    rw [foldl_point_id (fun ld : LoserData => ld.id)
        (fun ld q => { q with rating := ld.new_rating, games_played := q.games_played + 1 })
        (fun _ _ => rfl)]
    by_cases hc : p.id = winner_id
    · rw [if_pos hc]
    · rw [if_neg hc]
  refine ⟨?_, ?_, ?_, ?_⟩
  · intro p' hp'
    rw [hpl] at hp'
    obtain ⟨p, hp, rfl⟩ := List.mem_map.mp hp'
    obtain ⟨hrat, hgam⟩ := hinv p hp
    by_cases hcw : p.id = winner_id
    · have hpw : p = w :=
        nodup_key_inj (fun x : Player => x.id) s.players hpn p hp w hwmem (by show p.id = w.id; rw [hcw, hwid])
      rw [record_point_winner winner_id new_w ldata hwnotin p hcw]
      constructor
      · dsimp only
        rw [hparts, List.filter_append, List.filter_cons,
            if_pos (by simp [hcw]),
            filter_lrows_not_mem ldata s.nextId p.id (by rw [hcw]; exact hwnotin)]
        simp only [List.map_append, List.sum_append, List.map_cons, List.map_nil,
          List.sum_cons, List.sum_nil]
        rw [hnew, ← hpw]
        linarith [hrat]
      · dsimp only
        rw [hparts, List.filter_append, List.filter_cons,
            if_pos (by simp [hcw]),
            filter_lrows_not_mem ldata s.nextId p.id (by rw [hcw]; exact hwnotin)]
        simp only [List.length_append, List.length_cons, List.length_nil]
        omega
    · by_cases hcl : p.id ∈ ldata.map (fun ld => ld.id)
      · obtain ⟨ld, hldm, hldid⟩ := List.mem_map.mp hcl
        obtain ⟨q, hqmem, hqid, hold, hnewr⟩ := hld ld hldm
        have hqp : q = p :=
          nodup_key_inj (fun x : Player => x.id) s.players hpn q hqmem p hp (by show q.id = p.id; rw [hqid, hldid])
        rw [record_point_loser winner_id new_w ldata hidnd ld hldm p hldid.symm hcw]
        rw [hqp] at hnewr
        constructor
        · dsimp only
          rw [hparts, List.filter_append, List.filter_cons,
              if_neg (by simp only [beq_iff_eq]; exact fun hEq => hcw hEq.symm),
              filter_lrows_single ldata s.nextId ld p.id hidnd hldm hldid]
          simp only [List.map_append, List.sum_append, List.map_cons, List.map_nil,
            List.sum_cons, List.sum_nil]
          rw [hnewr]
          linarith [hrat]
        · dsimp only
          rw [hparts, List.filter_append, List.filter_cons,
              if_neg (by simp only [beq_iff_eq]; exact fun hEq => hcw hEq.symm),
              filter_lrows_single ldata s.nextId ld p.id hidnd hldm hldid]
          simp only [List.length_append, List.length_cons, List.length_nil]
          omega
      · rw [record_point_other winner_id new_w ldata p hcw hcl]
        constructor
        · rw [hparts, List.filter_append, List.filter_cons,
              if_neg (by simp only [beq_iff_eq]; exact fun hEq => hcw hEq.symm),
              filter_lrows_not_mem ldata s.nextId p.id hcl]
          simp only [List.map_append, List.sum_append, List.map_nil, List.sum_nil]
          linarith [hrat]
        · rw [hparts, List.filter_append, List.filter_cons,
              if_neg (by simp only [beq_iff_eq]; exact fun hEq => hcw hEq.symm),
              filter_lrows_not_mem ldata s.nextId p.id hcl]
          simp only [List.length_append, List.length_nil]
          omega
  · rw [hpl]
    have h2 : (s.players.map (fun p =>
        ldata.foldl
          (fun q ld => if q.id = ld.id then
              { q with rating := ld.new_rating, games_played := q.games_played + 1 } else q)
          (if p.id = winner_id then
              { p with rating := new_w, games_played := p.games_played + 1 } else p))).map
            (fun p : Player => p.id)
        = s.players.map (fun p : Player => p.id) := by
      rw [List.map_map]
      exact list_map_congr _ _ _ (fun p _ => hFid p)
    rw [h2]
    exact hpn
  · intro p' hp'
    rw [hpl] at hp'
    obtain ⟨p, hp, rfl⟩ := List.mem_map.mp hp'
    show _ < s.nextId + 1
    rw [hFid p]
    exact Nat.lt_trans (hpb p hp) (Nat.lt_succ_self _)
  · intro r hr
    rw [hparts] at hr
    simp only [List.mem_append, List.mem_cons] at hr
    show r.player_id < s.nextId + 1
    rcases hr with hr | hr | hr
    · exact Nat.lt_trans (hrb r hr) (Nat.lt_succ_self _)
    · subst hr
      have hlt : winner_id < s.nextId := hwid ▸ hpb w hwmem
      exact Nat.lt_trans hlt (Nat.lt_succ_self _)
    · obtain ⟨ld, hldm, rfl⟩ := List.mem_map.mp hr
      obtain ⟨q, hqmem, hqid, -, -⟩ := hld ld hldm
      have hlt : ld.id < s.nextId := hqid ▸ hpb q hqmem
      exact Nat.lt_trans hlt (Nat.lt_succ_self _)

/-- `set_k_factor` touches no table and preserves the invariant. -/
theorem invAux_setK {k : Rat} {s : State} (ha : InvAux s) :
    InvAux (Database.set_k_factor k s) := ha

/-- `delete_match` preserves the auxiliary invariant: every player loses
exactly the deltas, and the row count, of their participations in the
deleted match. -/
theorem invAux_deleteM {mid : Nat} {s s' : State}
    (h : Database.delete_match mid s = .ok s') (ha : InvAux s) : InvAux s' := by
  obtain ⟨hinv, hpn, hpb, hrb⟩ := ha
  unfold Database.delete_match at h
  split at h
  · simp at h
  · simp only [Except.ok.injEq] at h
    subst h
    have hpl := delete_apply_players mid s
    refine ⟨?_, ?_, ?_, ?_⟩
    · intro p' hp'
      rw [show (Database.delete_match_apply mid s).players
            = (Database.delete_match_apply mid s).players from rfl, hpl] at hp'
      obtain ⟨p, hp, rfl⟩ := List.mem_map.mp hp'
      obtain ⟨hrat, hgam⟩ := hinv p hp
      have hparts : (Database.delete_match_apply mid s).participations
          = s.participations.filter (fun r => !(r.match_id == mid)) := rfl
      have hsum := sum_filter_bool_split (fun r => r.match_id == mid)
        (fun r => r.rating_delta) (s.participations.filter (fun r => r.player_id == p.id))
      have hlen := length_filter_bool_split (fun r => r.match_id == mid)
        (s.participations.filter (fun r => r.player_id == p.id))
      constructor
      · dsimp only
        rw [hparts,
            filter_comm (fun r : Participation => r.match_id == mid)
              (fun r : Participation => r.player_id == p.id),
            filter_comm (fun r : Participation => !(r.match_id == mid))
              (fun r : Participation => r.player_id == p.id),
            hrat]
        linarith [hsum]
      · dsimp only
        rw [hparts,
            filter_comm (fun r : Participation => r.match_id == mid)
              (fun r : Participation => r.player_id == p.id),
            filter_comm (fun r : Participation => !(r.match_id == mid))
              (fun r : Participation => r.player_id == p.id),
            hgam]
        omega
    · rw [hpl, List.map_map]
      have : ((fun p : Player => p.id) ∘ (fun p : Player =>
          ({ p with
             rating := p.rating
               - (((s.participations.filter (fun r => r.match_id == mid)).filter
                     (fun r => r.player_id == p.id)).map (fun r => r.rating_delta)).sum,
             games_played := p.games_played
               - (((s.participations.filter (fun r => r.match_id == mid)).filter
                     (fun r => r.player_id == p.id)).length : Int) } : Player)))
          = (fun p : Player => p.id) := rfl
      rw [this]
      exact hpn
    · intro p' hp'
      rw [show (Database.delete_match_apply mid s).nextId = s.nextId from rfl]
      rw [hpl] at hp'
      obtain ⟨p, hp, rfl⟩ := List.mem_map.mp hp'
      exact hpb p hp
    · intro r hr
      rw [show (Database.delete_match_apply mid s).nextId = s.nextId from rfl]
      have : r ∈ s.participations.filter (fun x => !(x.match_id == mid)) := hr
      exact hrb r (List.mem_of_mem_filter this)

/-- Any single public operation without player deletion preserves the
auxiliary invariant. -/
theorem step_invAux {s s' : State} (hstep : Step s s') (ha : InvAux s) : InvAux s' := by
  cases hstep with
  | create name pid s s' h => exact invAux_create h ha
  | record date winner_id loser_ids dw new_w ldata w mid s s' hw hnew hld hnodup hne h =>
    exact invAux_record hw hnew hld hnodup h ha
  | deleteM mid s s' h => exact invAux_deleteM h ha
  | setK k s => exact invAux_setK ha

/-- The freshly initialised database satisfies the auxiliary invariant. -/
theorem invAux_init : InvAux Database.init_db := by
  refine ⟨?_, ?_, ?_, ?_⟩ <;> simp [Database.init_db, RatingInv]

/-- Every state reachable without player deletion satisfies the auxiliary
invariant. -/
theorem reachable_invAux {s : State} (h : Reachable s) : InvAux s := by
  unfold Reachable at h
  induction h with
  | refl => exact invAux_init
  | tail hab hbc ih => exact step_invAux hbc ih

end InvariantLemmas

section ClaimsEngine

/-- Accumulator characterisation of the fold inside `Elo.calculate_deltas`. -/
theorem Elo.calculate_deltas_foldl (w k : ℝ) :
    ∀ (ls : List ℝ) (a : ℝ) (b : List ℝ),
      ls.foldl
        (fun acc l_rating =>
          (acc.1 + k * (1 - Elo.expected_score w l_rating),
           acc.2 ++ [k * (0 - Elo.expected_score l_rating w)]))
        (a, b)
      = (a + (ls.map (fun lr => k * (1 - Elo.expected_score w lr))).sum,
         b ++ ls.map (fun lr => k * (0 - Elo.expected_score lr w))) := by
  intro ls
  induction ls with
  | nil => intro a b; simp
  | cons x xs ih =>
    intro a b
    simp only [List.foldl_cons, List.map_cons, List.sum_cons]
    rw [ih]
    simp [add_assoc, List.append_assoc]

/-- C3: `calculate_deltas` returns the winner delta as the sum over the
losers of `k * (1 - expected_score(winner, loser))` and, aligned by
position, each loser delta `k * (0 - expected_score(loser, winner))`; in
particular an empty loser sequence yields winner delta 0 and an empty
loser-delta sequence without being rejected. -/
theorem claim_C3 (w k : ℝ) :
    (∀ ls : List ℝ,
        Elo.calculate_deltas w ls k
          = ((ls.map (fun lr => k * (1 - Elo.expected_score w lr))).sum,
             ls.map (fun lr => k * (0 - Elo.expected_score lr w))))
    ∧ Elo.calculate_deltas w [] k = (0, []) := by
  constructor
  · intro ls
    unfold Elo.calculate_deltas
    rw [Elo.calculate_deltas_foldl]
    simp
  · rfl

/-- C8: expected scores of the two orderings of any two ratings sum to 1,
and the expected score of a rating against itself is 0.5. -/
theorem claim_C8 (a b : ℝ) :
    Elo.expected_score a b + Elo.expected_score b a = 1
    ∧ Elo.expected_score a a = 0.5 := by
  constructor
  · unfold Elo.expected_score
    have h10 : (0:ℝ) < 10 := by norm_num
    have ht : (0:ℝ) < (10 : ℝ) ^ ((b - a) / 400) := Real.rpow_pos_of_pos h10 _
    have hrw : (10 : ℝ) ^ ((a - b) / 400) = ((10 : ℝ) ^ ((b - a) / 400))⁻¹ := by
      rw [show (a - b) / 400 = -((b - a) / 400) by ring, Real.rpow_neg h10.le]
    rw [hrw]
    have h1 : (1 : ℝ) + (10 : ℝ) ^ ((b - a) / 400) ≠ 0 := by positivity
    have h2 : ((10 : ℝ) ^ ((b - a) / 400)) ≠ 0 := ne_of_gt ht
    field_simp
    ring
  · unfold Elo.expected_score
    rw [show (a - a) / 400 = (0:ℝ) by ring, Real.rpow_zero]
    norm_num

/-- C9: the derived win rate is `wins / total_games * 100` for a nonempty
history, is 0 for an empty history, and always lies in [0, 100]. -/
theorem claim_C9 (h : List FlaskApp.HistRow) :
    (FlaskApp.total_games h = 0 → FlaskApp.win_rate h = 0)
    ∧ (0 < FlaskApp.total_games h →
        FlaskApp.win_rate h
          = (FlaskApp.wins h : Rat) / (FlaskApp.total_games h : Rat) * 100)
    ∧ 0 ≤ FlaskApp.win_rate h ∧ FlaskApp.win_rate h ≤ 100 := by
  have hle : FlaskApp.wins h ≤ FlaskApp.total_games h := List.length_filter_le _ _
  by_cases hpos : 0 < FlaskApp.total_games h
  · have hr : FlaskApp.win_rate h
        = (FlaskApp.wins h : Rat) / (FlaskApp.total_games h : Rat) * 100 := by
      unfold FlaskApp.win_rate
      rw [if_pos hpos]
    have htpos : (0 : Rat) < (FlaskApp.total_games h : Rat) := by exact_mod_cast hpos
    have hdiv1 : (FlaskApp.wins h : Rat) / (FlaskApp.total_games h : Rat) ≤ 1 :=
      (div_le_one htpos).mpr (by exact_mod_cast hle)
    have hdiv0 : (0:Rat) ≤ (FlaskApp.wins h : Rat) / (FlaskApp.total_games h : Rat) :=
      div_nonneg (by positivity) htpos.le
    refine ⟨fun h0 => absurd h0 (by omega), fun _ => hr, ?_, ?_⟩
    · rw [hr]
      exact mul_nonneg hdiv0 (by norm_num)
    · rw [hr]
      have := mul_le_mul_of_nonneg_right hdiv1 (by norm_num : (0:Rat) ≤ 100)
      simpa using this
  · have hr : FlaskApp.win_rate h = 0 := by
      unfold FlaskApp.win_rate
      rw [if_neg hpos]
    exact ⟨fun _ => hr, fun hp => absurd hp hpos, by rw [hr], by rw [hr]; norm_num⟩

/-- C9 witness at a concrete one-element winning history. -/
theorem claim_C9_witness :
    FlaskApp.win_rate [{ match_id := 0, date := 0, is_winner := true,
                         rating_delta := 16, rating_after := 1216 }]
      = (FlaskApp.wins [{ match_id := 0, date := 0, is_winner := true,
                          rating_delta := 16, rating_after := 1216 }] : Rat)
        / (FlaskApp.total_games [{ match_id := 0, date := 0, is_winner := true,
                                   rating_delta := 16, rating_after := 1216 }] : Rat) * 100 :=
  (claim_C9 _).2.1 (by decide)

end ClaimsEngine

section ClaimsLedger

/-- Structure extensionality for player rows. -/
theorem Player.ext' {a b : Player} (h1 : a.id = b.id) (h2 : a.name = b.name)
    (h3 : a.rating = b.rating) (h4 : a.games_played = b.games_played) : a = b := by
  cases a
  cases b
  simp_all

/-- Concrete computation: creating player 0 on the fresh database. -/
theorem exStep1 : Database.create_player 0 Database.init_db = .ok (0, exS1) := by
  norm_num [Database.create_player, Database.init_db, exS1, exA]

/-- Concrete computation: creating player 1 next. -/
theorem exStep2 : Database.create_player 1 exS1 = .ok (1, exS2) := by
  norm_num [Database.create_player, exS1, exS2, exA, exB]

/-- Concrete computation: player 0 beats player 1 at K = 32. -/
theorem exStep3 : Database.record_match 7 0 [1] 16 1216 [exLd] exS2 = .ok (2, exS3) := by
  norm_num [Database.record_match, Database.record_match_apply, Database.updateWhereId,
    Database.get_k_factor, exS2, exS3, exA, exB, exLd]

/-- Concrete computation: deleting player 0 erases the match and both
participations but leaves player 1's rating and games_played as written. -/
theorem exStep4 : Database.delete_player 0 exS3 = exS4 := by
  norm_num [Database.delete_player, exS3, exS4]

/-- Concrete lookup of the winner row before the match. -/
theorem exGetPlayer : Database.get_player 0 exS2 = some exA := by decide

/-- The concrete loser tuple satisfies the caller contract of
`create_match` against the stored ratings. -/
theorem exHld : ∀ ld ∈ [exLd], ∃ q ∈ exS2.players, q.id = ld.id ∧
    ld.old_rating = q.rating ∧ ld.new_rating = q.rating + ld.delta := by
  intro ld hld
  simp only [List.mem_singleton] at hld
  subst hld
  refine ⟨exB, by simp [exS2], by simp [exB, exLd], by norm_num [exB, exLd],
    by norm_num [exB, exLd]⟩

/-- The recording step of the concrete scenario. -/
theorem exStepRecord : Step exS2 exS3 :=
  Step.record 7 0 [1] 16 1216 [exLd] exA 2 exS2 exS3 exGetPlayer
    (by norm_num [exA]) exHld (by decide) (by decide) exStep3

/-- C2 (amended): in every ledger state reachable from the freshly
initialised database by any sequence of create_player, record_match,
delete_match and set_k_factor — player deletion excluded, see the
counterexample — every player's stored rating equals 1200.0 plus the sum
of the rating deltas of their stored participation rows, and games_played
equals the count of those rows. -/
theorem claim_C2 (s : State) (h : Reachable s) : RatingInv s :=
  (reachable_invAux h).1

/-- C2 counterexample: with delete_player among the operations the claimed
invariant fails on a reachable state — create players 0 and 1, record a
match won by 0, then delete player 0: player 1 retains rating 1184 and
games_played 1 while its participation rows are gone. -/
theorem claim_C2_counterexample : ReachableFull exS4 ∧ ¬ RatingInv exS4 := by
  constructor
  · exact Relation.ReflTransGen.tail
      (Relation.ReflTransGen.tail
        (Relation.ReflTransGen.tail
          (Relation.ReflTransGen.tail Relation.ReflTransGen.refl
            (Or.inl (Step.create 0 0 Database.init_db exS1 exStep1)))
          (Or.inl (Step.create 1 1 exS1 exS2 exStep2)))
        (Or.inl exStepRecord))
      (Or.inr ⟨0, exStep4.symm⟩)
  · intro hinv
    have hB := hinv { id := 1, name := 1, rating := 1184, games_played := 1 } (by simp [exS4])
    rw [show exS4.participations = [] from rfl] at hB
    simp at hB

/-- C2 witness: the invariant holds at the concrete state reached by two
player creations followed by one recorded match. -/
theorem claim_C2_witness : RatingInv exS3 :=
  claim_C2 exS3
    (Relation.ReflTransGen.tail
      (Relation.ReflTransGen.tail
        (Relation.ReflTransGen.tail Relation.ReflTransGen.refl
          (Step.create 0 0 Database.init_db exS1 exStep1))
        (Step.create 1 1 exS1 exS2 exStep2))
      exStepRecord)

end ClaimsLedger

/-- C1: recording a match whose tuples were computed from the current
stored ratings (as `create_match` does) over a primary-key-consistent
player table with a fresh match id, and then immediately deleting that
match, succeeds and restores every player row — rating and games_played —
bit for bit. -/
theorem claim_C1 (s : State) (date winner_id : Nat) (loser_ids : List Nat)
    (dw new_w : Rat) (ldata : List LoserData) (w : Player) (mid : Nat) (s' : State)
    (hpn : (s.players.map (fun p => p.id)).Nodup)
    (hfresh : ∀ r ∈ s.participations, r.match_id ≠ s.nextId)
    (hw : Database.get_player winner_id s = some w)
    (hnew : new_w = w.rating + dw)
    (hld : ∀ ld ∈ ldata, ∃ q ∈ s.players, q.id = ld.id ∧
        ld.old_rating = q.rating ∧ ld.new_rating = q.rating + ld.delta)
    (hnodup : (winner_id :: ldata.map (fun ld => ld.id)).Nodup)
    (hrec : Database.record_match date winner_id loser_ids dw new_w ldata s = .ok (mid, s')) :
    ∃ s'', Database.delete_match mid s' = .ok s'' ∧ s''.players = s.players := by
  unfold Database.record_match at hrec
  split at hrec
  case isFalse => simp at hrec
  case isTrue hguard =>
  simp only [Except.ok.injEq, Prod.mk.injEq] at hrec
  obtain ⟨hmid, hs'⟩ := hrec
  subst hs'
  subst hmid
  obtain ⟨hwmem, hwid⟩ := get_player_some hw
  have hidnd : (ldata.map (fun ld => ld.id)).Nodup := (List.nodup_cons.mp hnodup).2
  have hwnotin : winner_id ∉ ldata.map (fun ld => ld.id) := (List.nodup_cons.mp hnodup).1
  have hparts := record_apply_parts date winner_id dw new_w ldata s
  have hpl := record_apply_players date winner_id dw new_w ldata s
  have hfilter : (Database.record_match_apply date winner_id dw new_w ldata s).participations.filter
      (fun r => r.match_id == s.nextId)
      = ({ match_id := s.nextId, player_id := winner_id, is_winner := true,
           rating_before := new_w - dw, rating_after := new_w,
           rating_delta := dw } : Participation)
        :: ldata.map (fun ld =>
             ({ match_id := s.nextId, player_id := ld.id, is_winner := false,
                rating_before := ld.old_rating, rating_after := ld.new_rating,
                rating_delta := ld.delta } : Participation)) := by
    rw [hparts, List.filter_append]
    have h1 : s.participations.filter (fun r => r.match_id == s.nextId) = [] := by
      rw [List.filter_eq_nil_iff]
      intro r hr
      simp only [beq_iff_eq]
      exact hfresh r hr
    rw [h1, List.nil_append, List.filter_cons, if_pos (by simp)]
    congr 1
    rw [List.filter_eq_self]
    intro r hr
    obtain ⟨ld, hldm, rfl⟩ := List.mem_map.mp hr
    simp
  refine ⟨Database.delete_match_apply s.nextId
      (Database.record_match_apply date winner_id dw new_w ldata s), ?_, ?_⟩
  · unfold Database.delete_match
    rw [hfilter]
    rw [if_neg (by simp)]
  · rw [delete_apply_players, hfilter, hpl, List.map_map]
    apply list_map_id_of
    intro p hp
    simp only [Function.comp_apply]
    by_cases hcw : p.id = winner_id
    · have hpw : p = w :=
        nodup_key_inj (fun x : Player => x.id) s.players hpn p hp w hwmem
          (by show p.id = w.id; rw [hcw, hwid])
      rw [record_point_winner winner_id new_w ldata hwnotin p hcw]
      rw [List.filter_cons]
      rw [if_pos (by simp [hcw]),
          filter_lrows_not_mem ldata s.nextId _ (by rw [hcw]; exact hwnotin)]
      refine Player.ext' rfl rfl ?_ ?_
      · show new_w - _ = p.rating
        simp only [List.map_cons, List.map_nil, List.sum_cons, List.sum_nil]
        rw [hnew, hpw]
        ring
      · show p.games_played + 1 - _ = p.games_played
        simp only [List.length_cons, List.length_nil]
        push_cast
        ring
    · by_cases hcl : p.id ∈ ldata.map (fun ld => ld.id)
      · obtain ⟨ld, hldm, hldid⟩ := List.mem_map.mp hcl
        obtain ⟨q, hqmem, hqid, hold, hnewr⟩ := hld ld hldm
        have hqp : q = p :=
          nodup_key_inj (fun x : Player => x.id) s.players hpn q hqmem p hp
            (by show q.id = p.id; rw [hqid, hldid])
        rw [hqp] at hnewr
        rw [record_point_loser winner_id new_w ldata hidnd ld hldm p hldid.symm hcw]
        rw [List.filter_cons,
            if_neg (by simp only [beq_iff_eq]; exact fun hEq => hcw hEq.symm),
            filter_lrows_single ldata s.nextId ld _ hidnd hldm hldid]
        refine Player.ext' rfl rfl ?_ ?_
        · show ld.new_rating - _ = p.rating
          simp only [List.map_cons, List.map_nil, List.sum_cons, List.sum_nil]
          rw [hnewr]
          ring
        · show p.games_played + 1 - _ = p.games_played
          simp only [List.length_cons, List.length_nil]
          push_cast
          ring
      · rw [record_point_other winner_id new_w ldata p hcw hcl]
        rw [List.filter_cons,
            if_neg (by simp only [beq_iff_eq]; exact fun hEq => hcw hEq.symm),
            filter_lrows_not_mem ldata s.nextId _ hcl]
        refine Player.ext' rfl rfl ?_ ?_
        · show p.rating - _ = p.rating
          simp
        · show p.games_played - _ = p.games_played
          simp

/-- C1 witness: recording the concrete match and immediately deleting it
restores both concrete players exactly. -/
theorem claim_C1_witness :
    ∃ s'', Database.delete_match 2 exS3 = .ok s'' ∧ s''.players = exS2.players :=
  claim_C1 exS2 7 0 [1] 16 1216 [exLd] exA 2 exS3 (by decide) (by decide)
    exGetPlayer (by norm_num [exA]) exHld (by decide) exStep3

/-- C4: `delete_player` removes exactly the matches won by the player
(with all their participation rows, whoever they belong to), the player's
own remaining participation rows, and the player row itself; every other
player row — rating and games_played included — survives unchanged. -/
theorem claim_C4 (s : State) (pid : Nat) :
    (∀ m : Match, m ∈ (Database.delete_player pid s).«matches»
        ↔ m ∈ s.«matches» ∧ m.winner_id ≠ pid)
    ∧ (∀ r : Participation, r ∈ (Database.delete_player pid s).participations
        ↔ r ∈ s.participations ∧ r.player_id ≠ pid
          ∧ ¬ ∃ m ∈ s.«matches», m.id = r.match_id ∧ m.winner_id = pid)
    ∧ (∀ p : Player, p ∈ (Database.delete_player pid s).players
        ↔ p ∈ s.players ∧ p.id ≠ pid) := by
  unfold Database.delete_player
  dsimp only
  rw [foldl_filter_not_mem (fun r : Participation => r.match_id)]
  refine ⟨?_, ?_, ?_⟩
  · intro m
    simp [List.mem_filter]
  · intro r
    simp only [List.mem_filter, List.mem_map, Bool.not_eq_true', beq_eq_false_iff_ne,
      ne_eq, decide_eq_false_iff_not]
    constructor
    · rintro ⟨⟨hmem, hnotin⟩, hne⟩
      refine ⟨hmem, hne, ?_⟩
      rintro ⟨m, hm, hmid, hwin⟩
      exact hnotin ⟨m, ⟨hm, by simp [hwin]⟩, hmid⟩
    · rintro ⟨hmem, hne, hno⟩
      refine ⟨⟨hmem, ?_⟩, hne⟩
      rintro ⟨m, ⟨hm', hwin⟩, hmid⟩
      simp only [beq_iff_eq] at hwin
      exact hno ⟨m, hm', hmid, hwin⟩
  · intro p
    simp [List.mem_filter]

/-- C5: the `delete_match` endpoint fails with the match-not-found error
exactly when the match has no participation rows, and on any failure the
connection state is rolled back to exactly the pre-call state. -/
theorem claim_C5 (s : State) (mid : Nat) :
    ((Database.delete_match_api mid s).1 = .error .matchNotFound
        ↔ s.participations.filter (fun r => r.match_id == mid) = [])
    ∧ (∀ e, (Database.delete_match_api mid s).1 = .error e →
        e = DbError.matchNotFound ∧ (Database.delete_match_api mid s).2 = s) := by
  unfold Database.delete_match_api Database.delete_match
  by_cases hc : s.participations.filter (fun r => r.match_id == mid) = []
  · rw [if_pos hc]
    simp [hc]
  · rw [if_neg hc]
    simp [hc]

/-- C5 witness: on the empty database deleting match 0 reports the
match-not-found error and leaves the state untouched. -/
theorem claim_C5_witness :
    DbError.matchNotFound = DbError.matchNotFound
    ∧ (Database.delete_match_api 0 Database.init_db).2 = Database.init_db :=
  (claim_C5 Database.init_db 0).2 DbError.matchNotFound (by rfl)

/-- C7: every participation row written by `record_match` when fed the
loser tuples that `create_match` builds (`new_rating = old_rating + delta`)
satisfies `rating_after - rating_before = rating_delta`; the winner row
does so by construction of its stored `rating_before`. -/
theorem claim_C7 (s : State) (date winner_id : Nat) (loser_ids : List Nat)
    (dw new_w : Rat) (losers : List Player) (deltas_l : List Rat) (mid : Nat) (s' : State)
    (hrec : Database.record_match date winner_id loser_ids dw new_w
        (FlaskApp.losers_update_data losers deltas_l) s = .ok (mid, s')) :
    ∀ r ∈ s'.participations, r ∈ s.participations
      ∨ r.rating_after - r.rating_before = r.rating_delta := by
  unfold Database.record_match at hrec
  split at hrec
  case isFalse => simp at hrec
  case isTrue =>
  simp only [Except.ok.injEq, Prod.mk.injEq] at hrec
  obtain ⟨-, hs'⟩ := hrec
  subst hs'
  intro r hr
  rw [record_apply_parts] at hr
  simp only [List.mem_append, List.mem_cons] at hr
  rcases hr with hr | hr | hr
  · exact Or.inl hr
  · subst hr
    right
    show new_w - (new_w - dw) = dw
    ring
  · right
    obtain ⟨ld, hldm, rfl⟩ := List.mem_map.mp hr
    obtain ⟨l, hl, d, hd, rfl⟩ := mem_zipWith _ losers deltas_l ld hldm
    show (l.rating + d) - l.rating = d
    ring

/-- Concrete computation: the recording of the concrete match with the
loser tuples built exactly as `create_match` builds them. -/
theorem exStep3' : Database.record_match 7 0 [1] 16 1216
    (FlaskApp.losers_update_data [exB] [-16]) exS2 = .ok (2, exS3) := by
  norm_num [Database.record_match, Database.record_match_apply, Database.updateWhereId,
    Database.get_k_factor, FlaskApp.losers_update_data, exS2, exS3, exA, exB]

/-- C7 witness: the winner row written in the concrete recorded match
satisfies the delta identity. -/
theorem claim_C7_witness :
    ({ match_id := 2, player_id := 0, is_winner := true, rating_before := 1200,
       rating_after := 1216, rating_delta := 16 } : Participation) ∈ exS2.participations
    ∨ ({ match_id := 2, player_id := 0, is_winner := true, rating_before := 1200,
         rating_after := 1216, rating_delta := 16 } : Participation).rating_after
        - ({ match_id := 2, player_id := 0, is_winner := true, rating_before := 1200,
             rating_after := 1216, rating_delta := 16 } : Participation).rating_before
      = ({ match_id := 2, player_id := 0, is_winner := true, rating_before := 1200,
           rating_after := 1216, rating_delta := 16 } : Participation).rating_delta :=
  claim_C7 exS2 7 0 [1] 16 1216 [exB] [-16] 2 exS3 exStep3' _ (by decide)

/-- C10: every row returned by `get_matches_history` owes its existence to
at least one loser participation joined to an existing player, and a
stored match with no such participation yields no row at all (it is
silently omitted instead of appearing with an empty loser field). -/
theorem claim_C10 (s : State) :
    (∀ row ∈ Database.get_matches_history s,
        ∃ p ∈ s.participations, p.match_id = row.id ∧ p.is_winner = false
          ∧ ∃ l ∈ s.players, l.id = p.player_id)
    ∧ (∀ m ∈ s.«matches»,
        (∀ p ∈ s.participations, ¬(p.match_id = m.id ∧ p.is_winner = false
            ∧ ∃ l ∈ s.players, l.id = p.player_id)) →
        ∀ row ∈ Database.get_matches_history s, row.id ≠ m.id) := by
  have hmain : ∀ row ∈ Database.get_matches_history s,
      ∃ p ∈ s.participations, p.match_id = row.id ∧ p.is_winner = false
        ∧ ∃ l ∈ s.players, l.id = p.player_id := by
    intro row hrow
    unfold Database.get_matches_history at hrow
    obtain ⟨m, hm, hfm⟩ := List.mem_filterMap.mp hrow
    cases hfw : s.players.find? (fun w => w.id == m.winner_id) with
    | none => rw [hfw] at hfm; simp at hfm
    | some w =>
      rw [hfw] at hfm
      dsimp only at hfm
      split at hfm
      case isTrue => simp at hfm
      case isFalse hne =>
        simp only [Option.some.injEq] at hfm
        subst hfm
        obtain ⟨a, ha⟩ := List.exists_mem_of_ne_nil _ hne
        obtain ⟨p, hp, hgp⟩ := List.mem_filterMap.mp ha
        obtain ⟨hpmem, hcond⟩ := List.mem_filter.mp hp
        simp only [Bool.and_eq_true, beq_iff_eq] at hcond
        refine ⟨p, hpmem, hcond.1, hcond.2, ?_⟩
        have hmem := List.mem_of_find?_eq_some hgp
        have hpred := List.find?_some hgp
        simp only [beq_iff_eq] at hpred
        exact ⟨_, hmem, hpred⟩
  refine ⟨hmain, ?_⟩
  intro m hm hno row hrow hEq
  obtain ⟨p, hpmem, hpm, hwin, l, hl, hlid⟩ := hmain row hrow
  exact hno p hpmem ⟨by rw [hpm, hEq], hwin, l, hl, hlid⟩

/-- C10 witness: in the concrete recorded state the single returned row is
backed by the loser participation of player 1. -/
theorem claim_C10_witness :
    ∃ p ∈ exS3.participations,
      p.match_id = (⟨2, 7, 0, [1]⟩ : Database.MatchHistoryRow).id
      ∧ p.is_winner = false ∧ ∃ l ∈ exS3.players, l.id = p.player_id :=
  (claim_C10 exS3).1 (⟨2, 7, 0, [1]⟩ : Database.MatchHistoryRow) (by decide)

/-- Membership in a descending insertion. -/
theorem mem_insertDesc (rp x : Database.RankedPlayer) :
    ∀ l : List Database.RankedPlayer, x ∈ Database.insertDesc rp l ↔ x = rp ∨ x ∈ l := by
  intro l
  induction l with
  | nil => simp [Database.insertDesc]
  | cons q rest ih =>
    unfold Database.insertDesc
    by_cases h : q.player.rating < rp.player.rating
    · rw [if_pos h]
      simp [List.mem_cons]
    · rw [if_neg h]
      simp only [List.mem_cons, ih]
      tauto

/-- The descending sort permutes membership only. -/
theorem mem_sortByRatingDesc (x : Database.RankedPlayer) :
    ∀ l, x ∈ Database.sortByRatingDesc l ↔ x ∈ l := by
  intro l
  induction l with
  | nil => simp [Database.sortByRatingDesc]
  | cons q rest ih =>
    rw [show Database.sortByRatingDesc (q :: rest)
        = Database.insertDesc q (Database.sortByRatingDesc rest) from rfl]
    rw [mem_insertDesc, ih]
    simp [List.mem_cons]

/-- A fold of `max` never drops below its seed. -/
theorem foldl_max_init_le : ∀ (l : List Player) (a : Int),
    a ≤ l.foldl (fun m q => max m q.games_played) a := by
  intro l
  induction l with
  | nil => intro a; exact le_refl a
  | cons x xs ih => intro a; exact le_trans (le_max_left a x.games_played) (ih _)

/-- A fold of `max` dominates every listed games_played. -/
theorem mem_le_foldl_max : ∀ (l : List Player) (a : Int) (p : Player), p ∈ l →
    p.games_played ≤ l.foldl (fun m q => max m q.games_played) a := by
  intro l
  induction l with
  | nil => intro a p hp; exact absurd hp (List.not_mem_nil p)
  | cons x xs ih =>
    intro a p hp
    rcases List.mem_cons.mp hp with rfl | hp'
    · exact le_trans (le_max_right a p.games_played) (foldl_max_init_le xs _)
    · exact ih _ p hp'

/-- `max_games` dominates every player's games_played. -/
theorem le_max_games (l : List Player) (p : Player) (hp : p ∈ l) :
    p.games_played ≤ Database.max_games l := by
  cases l with
  | nil => exact absurd hp (List.not_mem_nil p)
  | cons x xs =>
    unfold Database.max_games
    rcases List.mem_cons.mp hp with rfl | hp'
    · exact foldl_max_init_le xs _
    · exact mem_le_foldl_max xs _ p hp'

/-- Under the lower clamp at 5, Python truncation toward zero agrees with
the mathematical floor. -/
theorem max_five_int_trunc (q : Rat) :
    max 5 (Database.int_trunc q) = max 5 (Int.floor q) := by
  unfold Database.int_trunc
  by_cases h : q < 0
  · rw [if_pos h]
    have h1 : Int.ceil q ≤ 0 := Int.ceil_le.mpr (by exact_mod_cast h.le)
    have h2 : Int.floor q ≤ 0 := le_trans (Int.floor_le_ceil q) h1
    rw [max_eq_left (le_trans h1 (by norm_num)), max_eq_left (le_trans h2 (by norm_num))]
  · rw [if_neg h]

/-- C6: for a nonempty population every leaderboard entry carries the
threshold `min(15, max(5, floor(max_games * 0.20)))`, which always lies in
[5, 15]; when the most active player has no games the threshold is 5 and
every entry is provisional. -/
theorem claim_C6 (s : State) (hne : s.players ≠ []) :
    ∀ rp ∈ Database.get_all_players s,
      rp.threshold = min 15 (max 5 (Int.floor ((Database.max_games s.players : Rat) * 0.20)))
      ∧ 5 ≤ rp.threshold ∧ rp.threshold ≤ 15
      ∧ (Database.max_games s.players = 0 → rp.is_ranked = false) := by
  intro rp hrp
  unfold Database.get_all_players at hrp
  rw [if_neg hne] at hrp
  dsimp only at hrp
  simp only [List.mem_append] at hrp
  have hflag : rp ∈ s.players.map (fun p =>
      ({ player := p,
         is_ranked := decide (p.games_played ≥ Database.leaderboard_threshold s.players),
         threshold := Database.leaderboard_threshold s.players } : Database.RankedPlayer)) := by
    rcases hrp with h | h
    · exact List.mem_of_mem_filter ((mem_sortByRatingDesc rp _).mp h)
    · exact List.mem_of_mem_filter ((mem_sortByRatingDesc rp _).mp h)
  obtain ⟨p, hp, rfl⟩ := List.mem_map.mp hflag
  have hth : Database.leaderboard_threshold s.players
      = min 15 (max 5 (Int.floor ((Database.max_games s.players : Rat) * 0.20))) := by
    unfold Database.leaderboard_threshold
    rw [max_five_int_trunc]
  have hge : 5 ≤ Database.leaderboard_threshold s.players := by
    rw [hth]
    exact le_min (by norm_num) (le_max_left _ _)
  have hle : Database.leaderboard_threshold s.players ≤ 15 := by
    rw [hth]
    exact min_le_left _ _
  refine ⟨hth, hge, hle, ?_⟩
  intro h0
  have hg := le_max_games s.players p hp
  rw [h0] at hg
  have hth5 : Database.leaderboard_threshold s.players = 5 := by
    rw [hth, h0]
    norm_num
  show decide (p.games_played ≥ Database.leaderboard_threshold s.players) = false
  rw [hth5]
  simp only [ge_iff_le, decide_eq_false_iff_not, not_le]
  omega

/-- Concrete computation: the leaderboard of the one-player state. -/
theorem exAllPlayers :
    Database.get_all_players exS1 = [⟨exA, false, 5⟩] := by
  norm_num [Database.get_all_players, Database.leaderboard_threshold, Database.max_games,
    Database.int_trunc, Database.sortByRatingDesc, Database.insertDesc, exS1, exA]

/-- C6 witness: the single provisional entry of the one-player leaderboard
carries threshold 5. -/
theorem claim_C6_witness :
    (⟨exA, false, 5⟩ : Database.RankedPlayer).threshold
        = min 15 (max 5 (Int.floor ((Database.max_games exS1.players : Rat) * 0.20)))
    ∧ 5 ≤ (⟨exA, false, 5⟩ : Database.RankedPlayer).threshold
    ∧ (⟨exA, false, 5⟩ : Database.RankedPlayer).threshold ≤ 15
    ∧ (Database.max_games exS1.players = 0 →
        (⟨exA, false, 5⟩ : Database.RankedPlayer).is_ranked = false) :=
  claim_C6 exS1 (by decide) ⟨exA, false, 5⟩ (by rw [exAllPlayers]; exact List.mem_singleton_self _)
